import Mathlib

/-!
Verification of the TradeKernel core against its specification.

The development shallowly embeds the C sources of the repository:

* `IPC`   — message queues (`src/Old-Version/kernel/proc/ipc.c`)
* `Ring`  — SPSC lock-free ring buffers (`src/Old-Version/kernel/proc/ipc.c`)
* `Sched` — scheduler queues (`src/kernel/proc/scheduler.c`)
* `Mem`   — heap allocator and memory pools (`src/Old-Version/kernel/mm/memory.c`)

Machine integers are modelled as `Nat` with explicit `% 2^32` where 32-bit
wrap-around matters; C functions that can fail return `Option`/sum results.
-/

/-- `2^32`, the modulus of the kernel's 32-bit unsigned arithmetic. -/
def U32 : Nat := 2 ^ 32

namespace IPC

/-- `MAX_MESSAGE_SIZE` from `ipc.h`. -/
def MAX_MESSAGE_SIZE : Nat := 1024

/-- `MAX_QUEUE_SIZE` from `ipc.h`. -/
def MAX_QUEUE_SIZE : Nat := 64

/-- `message_t` from `ipc.h`.  The payload byte array `data[MAX_MESSAGE_SIZE]`
is abstracted to a single value, since `msgsnd`/`msgrcv` only ever copy it
wholesale with `memcpy`. -/
structure Message where
  mtype : Nat
  sender_pid : Nat
  msize : Nat
  data : Nat
  timestamp : Nat
  mpriority : Nat
deriving DecidableEq

/-- The all-zero `message_t`. -/
def Message.zero : Message := ⟨0, 0, 0, 0, 0, 0⟩

/-- `message_queue_t` from `ipc.h`: a circular array of `MAX_QUEUE_SIZE`
slots with `head`, `tail`, `count`.  The slot array is modelled as a total
function from slot index to message. -/
structure MsgQueue where
  id : Nat
  key : Nat
  messages : Nat → Message
  head : Nat
  tail : Nat
  count : Nat
  max_size : Nat

/-- `msgsnd` (ipc.c, lines 70–108), at the level of a single already-located
queue.  `cur_pid` and `tick` stand for the globals `current_process->pid` and
`get_ticks()`.  Returns `none` where the C code returns `-1` (oversized
message, or full queue — with or without `IPC_NOWAIT` the C code returns
`-1` either way). -/
def msgsnd (cur_pid tick : Nat) (q : MsgQueue) (msg : Message) (size : Nat) :
    Option MsgQueue :=
  if size > MAX_MESSAGE_SIZE then none
  else if q.count ≥ q.max_size then none
  else
    let slot := { msg with sender_pid := cur_pid, timestamp := tick, msize := size }
    some { q with
            messages := Function.update q.messages q.tail slot
            tail := (q.tail + 1) % q.max_size
            count := q.count + 1 }

/-- The scan loop of `msgrcv` (ipc.c, lines 129–136): index `i < count` of the
first message at slot `(head + i) % max_size` whose type matches the filter
(`type == 0` matches any). -/
def msgrcv_scan (q : MsgQueue) (filter : Nat) : Option Nat :=
  (List.range q.count).find? fun i =>
    filter == 0 || (q.messages ((q.head + i) % q.max_size)).mtype == filter

/-- The removal loop of `msgrcv` (ipc.c, lines 145–149): shift the messages
after position `i` one slot toward the head, `j` running from `i` to
`count - 2`. -/
def msgrcv_shift (q : MsgQueue) (i : Nat) : Nat → Message :=
  List.foldl
    (fun mem k =>
      Function.update mem ((q.head + (i + k)) % q.max_size)
        (mem ((q.head + (i + k) + 1) % q.max_size)))
    q.messages (List.range (q.count - 1 - i))

/-- `msgrcv` (ipc.c, lines 110–163), at the level of a single already-located
queue.  On success returns the copied-out message and the new queue state;
`none` where the C code returns `-1` (no matching message under `IPC_NOWAIT`,
or matching message larger than the caller's buffer). -/
def msgrcv (q : MsgQueue) (bufsize filter : Nat) : Option (Message × MsgQueue) :=
  match msgrcv_scan q filter with
  | none => none
  | some i =>
    let cand := q.messages ((q.head + i) % q.max_size)
    if cand.msize > bufsize then none
    else some (cand, { q with messages := msgrcv_shift q i, count := q.count - 1 })

/-- A freshly created queue, as set up by `msgget` with `IPC_CREAT`
(ipc.c, lines 48–66). -/
def fresh_queue : MsgQueue :=
  { id := 1, key := 0x1234, messages := fun _ => Message.zero
    head := 0, tail := 0, count := 0, max_size := MAX_QUEUE_SIZE }

/-- Message of type 1 with payload `v`. -/
def type1_msg (v : Nat) : Message := { Message.zero with mtype := 1, data := v }

/-- The interleaved send/receive run that exhibits the `msgrcv` removal bug:
send A, send B, receive, send C, then receive twice more, all with type
filter 1.  Returns the payloads of the three receives together with the final
queue count. -/
def c1_run : Option (Nat × Nat × Nat × Nat) := do
  let q1 ← msgsnd 5 100 fresh_queue (type1_msg 0xAA) 8
  let q2 ← msgsnd 5 101 q1 (type1_msg 0xBB) 8
  let (r1, q3) ← msgrcv q2 1024 1
  let q4 ← msgsnd 5 102 q3 (type1_msg 0xCC) 8
  let (r2, q5) ← msgrcv q4 1024 1
  let (r3, q6) ← msgrcv q5 1024 1
  pure (r1.data, r2.data, r3.data, q6.count)

end IPC

namespace Ring

/-- `lockfree_ringbuf_t` from `ipc.h`.  The byte slab is modelled as a total
function from slot index to element (each `memcpy` of `element_size` bytes
moves one whole element). -/
structure Ringbuf (α : Type) where
  buffer : Nat → α
  size : Nat
  mask : Nat
  element_size : Nat
  head : Nat
  tail : Nat

/-- `ringbuf_push` (ipc.c, lines 366–388): `none` models the `-1` FULL
return. -/
def ringbuf_push {α} (rb : Ringbuf α) (x : α) : Option (Ringbuf α) :=
  let next_tail := (rb.tail + 1) &&& rb.mask
  if next_tail = rb.head then none
  else some { rb with buffer := Function.update rb.buffer rb.tail x, tail := next_tail }

/-- `ringbuf_pop` (ipc.c, lines 390–411): `none` models the `-1` EMPTY
return; on success returns the element read from `slab[head]` and the new
ring. -/
def ringbuf_pop {α} (rb : Ringbuf α) : Option (α × Ringbuf α) :=
  if rb.head = rb.tail then none
  else some (rb.buffer rb.head, { rb with head := (rb.head + 1) &&& rb.mask })

/-- `ringbuf_count` (ipc.c, lines 413–419): `(tail - head) & mask` in 32-bit
arithmetic. -/
def ringbuf_count {α} (rb : Ringbuf α) : Nat :=
  ((rb.tail + U32 - rb.head) % U32) &&& rb.mask

/-- The capacity-rounding loop of `ringbuf_init` (ipc.c, lines 347–351):
`while (power_of_two < size) power_of_two <<= 1;` on a 32-bit
`power_of_two`, with explicit fuel; `none` means the loop has not finished
within `fuel` iterations. -/
def pow2loop : Nat → Nat → Nat → Option Nat
  | 0, _, _ => none
  | fuel + 1, p, size =>
    if p < size then pow2loop fuel ((2 * p) % U32) size else some p

/-- `ringbuf_init` (ipc.c, lines 341–364).  `alloc_ok` stands for the
success of the `kmalloc` of the slab; 33 rounds of fuel are more than the
rounding loop can ever use when it terminates at all. -/
def ringbuf_init (alloc_ok : Bool) (size element_size : Nat) :
    Option (Ringbuf Nat) :=
  if size = 0 ∨ element_size = 0 then none
  else
    match pow2loop 33 1 size with
    | none => none
    | some cap =>
      if alloc_ok then
        some { buffer := fun _ => 0, size := cap, mask := cap - 1,
               element_size := element_size, head := 0, tail := 0 }
      else none

/-- The representation invariant `ringbuf_init` establishes: a power-of-two
size of at most `2^32`, `mask = size - 1`, and in-range indices. -/
def RingInv {α} (rb : Ringbuf α) : Prop :=
  ∃ k : Nat, k ≤ 32 ∧ rb.size = 2 ^ k ∧ rb.mask = rb.size - 1 ∧
    rb.head < rb.size ∧ rb.tail < rb.size

/-- The number of un-popped elements, in plain `Nat` arithmetic. -/
def ringCount {α} (rb : Ringbuf α) : Nat := (rb.tail + rb.size - rb.head) % rb.size

/-- The abstract FIFO contents of the ring: the elements from `head`
(oldest) up to `tail` (newest), in push order. -/
def ringList {α} (rb : Ringbuf α) : List α :=
  (List.range (ringCount rb)).map fun i => rb.buffer ((rb.head + i) % rb.size)

/-- A 128-slot ring of 64-bit values: the result of `ringbuf_init` for the
spec's seed test (requested capacity 100, rounded to 128). -/
def ring128 : Ringbuf Nat := ⟨fun _ => 0, 128, 127, 8, 0, 0⟩

/-- Push a list of values in order, failing on the first FULL. -/
def push_list {α} (rb : Ringbuf α) (vals : List α) : Option (Ringbuf α) :=
  List.foldlM (fun r v => ringbuf_push r v) rb vals

/-- Pop `n` values in order, failing on the first EMPTY. -/
def pop_list {α} (rb : Ringbuf α) : Nat → Option (List α × Ringbuf α)
  | 0 => some ([], rb)
  | n + 1 =>
    match ringbuf_pop rb with
    | none => none
    | some (v, rb') =>
      match pop_list rb' n with
      | none => none
      | some (vs, rbE) => some (v :: vs, rbE)

/-- The spec's SPSC seed test on a 128-slot ring: push 127 distinct values,
record whether the 128th push is FULL, pop 127 values, record whether the
128th pop is EMPTY. -/
def c4_seed_run : Option (Bool × List Nat × Bool) := do
  let rb ← push_list ring128 (List.range 127)
  let full := (ringbuf_push rb 999).isNone
  let (vs, rbE) ← pop_list rb 127
  pure (full, vs, (ringbuf_pop rbE).isNone)

/-- The ring used by the C4 witness: capacity 4, mask 3, empty. -/
def c4w : Ringbuf Nat := ⟨fun _ => 0, 4, 3, 8, 0, 0⟩

/-- `x % S` for `x < 2S`, as a case split. -/
lemma mod_two_cases (S x : Nat) (_hS : 0 < S) (hx : x < 2 * S) :
    x % S = if x < S then x else x - S := by
  by_cases hlt : x < S
  · rw [if_pos hlt, Nat.mod_eq_of_lt hlt]
  · rw [if_neg hlt]
    push_neg at hlt
    rw [Nat.mod_eq_sub_mod hlt, Nat.mod_eq_of_lt (by omega)]

/-- On termination, the rounding loop returns the least power of two ≥ the
requested size, i.e. `2 ^ clog 2 size`. -/
lemma pow2loop_exact (size : Nat) (_h1 : 0 < size) (h2 : size ≤ 2 ^ 31) :
    ∀ fuel j, j ≤ Nat.clog 2 size → Nat.clog 2 size < j + fuel →
      pow2loop fuel (2 ^ j) size = some (2 ^ Nat.clog 2 size) := by
  intro fuel
  induction fuel with
  | zero => intro j hj hlt; omega
  | succ n ih =>
    intro j hj hlt
    simp only [pow2loop]
    by_cases hp : 2 ^ j < size
    · rw [if_pos hp]
      have hjlt : j < Nat.clog 2 size := by
        by_contra hge
        push_neg at hge
        have := (Nat.le_pow_iff_clog_le one_lt_two).mpr hge
        omega
      have hclog31 : Nat.clog 2 size ≤ 31 := (Nat.le_pow_iff_clog_le one_lt_two).mp h2
      have h2j : 2 * 2 ^ j = 2 ^ (j + 1) := by rw [Nat.pow_succ]; ring
      have hlt32 : 2 ^ (j + 1) < U32 := by
        have hle : 2 ^ (j + 1) ≤ 2 ^ 31 :=
          Nat.pow_le_pow_right (by omega) (by omega)
        have : (2 : Nat) ^ 31 < 2 ^ 32 := by norm_num
        unfold U32
        omega
      rw [h2j, Nat.mod_eq_of_lt hlt32]
      exact ih (j + 1) (by omega) (by omega)
    · rw [if_neg hp]
      push_neg at hp
      have hle : Nat.clog 2 size ≤ j := (Nat.le_pow_iff_clog_le one_lt_two).mp hp
      have hje : j = Nat.clog 2 size := by omega
      rw [hje]

/-- For requests above `2^31` the 32-bit `power_of_two` cycles through
powers of two to `0` and never reaches the request: the loop never exits,
whatever the fuel. -/
lemma pow2loop_diverges (size : Nat) (hsize : 2 ^ 31 < size) :
    ∀ fuel p, (p = 0 ∨ ∃ j, j ≤ 31 ∧ p = 2 ^ j) → pow2loop fuel p size = none := by
  intro fuel
  induction fuel with
  | zero => intro p _; rfl
  | succ n ih =>
    intro p hp
    have hplt : p < size := by
      rcases hp with rfl | ⟨j, hj, rfl⟩
      · omega
      · have : (2 : Nat) ^ j ≤ 2 ^ 31 := Nat.pow_le_pow_right (by omega) hj
        omega
    simp only [pow2loop, if_pos hplt]
    apply ih
    rcases hp with rfl | ⟨j, hj, rfl⟩
    · left; simp
    · by_cases hj31 : j < 31
      · right
        refine ⟨j + 1, by omega, ?_⟩
        have h2j : 2 * 2 ^ j = 2 ^ (j + 1) := by rw [Nat.pow_succ]; ring
        have : 2 ^ (j + 1) ≤ 2 ^ 31 := Nat.pow_le_pow_right (by omega) (by omega)
        have h32 : (2 : Nat) ^ 31 < 2 ^ 32 := by norm_num
        rw [h2j, Nat.mod_eq_of_lt (by unfold U32; omega)]
      · left
        have hj' : j = 31 := by omega
        subst hj'
        show (2 * 2 ^ 31) % U32 = 0
        norm_num [U32]

end Ring

/-- C10: `ringbuf_init` terminates for every requested capacity
`1 ≤ size ≤ 2^31`, setting the capacity to the least power of two ≥ `size`,
the mask to capacity − 1 and `head = tail = 0`; and for every `size > 2^31`
the rounding loop never exits regardless of how long it runs, so the bound
is a genuine precondition. -/
theorem ringbuf_init_spec :
    (∀ size esz : Nat, 1 ≤ size → size ≤ 2 ^ 31 → 0 < esz →
      ∃ cap, Ring.pow2loop 33 1 size = some cap ∧
        Ring.ringbuf_init true size esz =
          some { buffer := fun _ => 0, size := cap, mask := cap - 1,
                 element_size := esz, head := 0, tail := 0 } ∧
        (∃ k, cap = 2 ^ k) ∧ size ≤ cap ∧
        (∀ m k : Nat, m = 2 ^ k → size ≤ m → cap ≤ m))
    ∧ (∀ size fuel : Nat, 2 ^ 31 < size → Ring.pow2loop fuel 1 size = none) := by
  constructor
  · intro size esz h1 h2 hesz
    have hclog31 : Nat.clog 2 size ≤ 31 := (Nat.le_pow_iff_clog_le one_lt_two).mp h2
    have hpow : Ring.pow2loop 33 (2 ^ 0) size = some (2 ^ Nat.clog 2 size) :=
      Ring.pow2loop_exact size (by omega) h2 33 0 (Nat.zero_le _) (by omega)
    rw [pow_zero] at hpow
    refine ⟨2 ^ Nat.clog 2 size, hpow, ?_, ⟨_, rfl⟩, ?_, ?_⟩
    · unfold Ring.ringbuf_init
      rw [if_neg (by omega : ¬(size = 0 ∨ esz = 0))]
      simp only [hpow, if_pos]
    · exact (Nat.le_pow_iff_clog_le one_lt_two).mpr le_rfl
    · intro m k hm hsm
      subst hm
      exact Nat.pow_le_pow_right (by omega)
        ((Nat.le_pow_iff_clog_le one_lt_two).mp hsm)
  · intro size fuel hsize
    exact Ring.pow2loop_diverges size hsize fuel 1 (Or.inr ⟨0, by omega, rfl⟩)

/-- C10 witness: the theorem at requested capacity 100 and element size 8
(the spec's SPSC seed test: capacity rounds to 128). -/
theorem ringbuf_init_spec_witness :
    (1 ≤ 100 ∧ 100 ≤ 2 ^ 31 ∧ 0 < 8) ∧
    ∃ cap, Ring.pow2loop 33 1 100 = some cap ∧
      Ring.ringbuf_init true 100 8 =
        some { buffer := fun _ => 0, size := cap, mask := cap - 1,
               element_size := 8, head := 0, tail := 0 } ∧
      (∃ k, cap = 2 ^ k) ∧ 100 ≤ cap ∧
      (∀ m k : Nat, m = 2 ^ k → 100 ≤ m → cap ≤ m) :=
  ⟨⟨by decide, by norm_num, by decide⟩,
   ringbuf_init_spec.1 100 8 (by decide) (by norm_num) (by decide)⟩

set_option maxRecDepth 40000 in
/-- C4: sequential SPSC correctness of the ring buffer.  Under the
representation invariant: push fails exactly on the code's full test
`(tail + 1) & mask == head`, which holds exactly when the ring already
holds `size - 1` elements; pop fails exactly when `head = tail`, i.e. the
ring is empty; the reported count equals the number of un-popped elements
and never exceeds `size - 1` (hence never the capacity); a successful push
appends its value to the abstract FIFO contents and a successful pop
removes and returns the oldest element, so pops return pushed values in
push order; and the spec's seed test holds: on a 128-slot ring the 128th
push is FULL, the 127 pops return the pushed values in order, and the 128th
pop is EMPTY. -/
theorem ringbuf_spec {α : Type} (rb : Ring.Ringbuf α) (x : α)
    (hinv : Ring.RingInv rb) :
    ((Ring.ringbuf_push rb x = none ↔ (rb.tail + 1) &&& rb.mask = rb.head)
      ∧ ((rb.tail + 1) &&& rb.mask = rb.head ↔ Ring.ringCount rb = rb.size - 1))
    ∧ ((Ring.ringbuf_pop rb = none ↔ rb.head = rb.tail)
      ∧ (rb.head = rb.tail ↔ Ring.ringCount rb = 0))
    ∧ (Ring.ringbuf_count rb = Ring.ringCount rb
      ∧ Ring.ringbuf_count rb ≤ rb.size - 1)
    ∧ (∀ rb', Ring.ringbuf_push rb x = some rb' →
        Ring.RingInv rb' ∧ Ring.ringList rb' = Ring.ringList rb ++ [x])
    ∧ (∀ v rb', Ring.ringbuf_pop rb = some (v, rb') →
        Ring.RingInv rb' ∧ Ring.ringList rb = v :: Ring.ringList rb')
    ∧ Ring.c4_seed_run = some (true, List.range 127, true) := by
  obtain ⟨k, hk32, hS, hM, hh, ht⟩ := hinv
  have hSpos : 0 < rb.size := by rw [hS]; positivity
  have hmask : ∀ y : Nat, y &&& rb.mask = y % rb.size := by
    intro y
    rw [hM, hS]
    exact Nat.and_pow_two_sub_one_eq_mod y k
  have hcases : Ring.ringCount rb =
      if rb.head ≤ rb.tail then rb.tail - rb.head
      else rb.tail + rb.size - rb.head := by
    show (rb.tail + rb.size - rb.head) % rb.size = _
    rw [Ring.mod_two_cases rb.size (rb.tail + rb.size - rb.head) hSpos (by omega)]
    by_cases hle : rb.head ≤ rb.tail
    · rw [if_neg (show ¬ rb.tail + rb.size - rb.head < rb.size by omega), if_pos hle]
      omega
    · rw [if_pos (show rb.tail + rb.size - rb.head < rb.size by omega), if_neg hle]
  have hcnt_lt : Ring.ringCount rb < rb.size := Nat.mod_lt _ hSpos
  have hfull : (rb.tail + 1) &&& rb.mask = rb.head ↔
      Ring.ringCount rb = rb.size - 1 := by
    rw [hmask, Ring.mod_two_cases rb.size (rb.tail + 1) hSpos (by omega), hcases]
    by_cases h1 : rb.tail + 1 < rb.size
    · rw [if_pos h1]
      by_cases hle : rb.head ≤ rb.tail
      · rw [if_pos hle]; omega
      · rw [if_neg hle]; omega
    · rw [if_neg h1]
      by_cases hle : rb.head ≤ rb.tail
      · rw [if_pos hle]; omega
      · rw [if_neg hle]; omega
  have hempty : rb.head = rb.tail ↔ Ring.ringCount rb = 0 := by
    rw [hcases]
    by_cases hle : rb.head ≤ rb.tail
    · rw [if_pos hle]; omega
    · rw [if_neg hle]; omega
  have hidx_last : (rb.head + Ring.ringCount rb) % rb.size = rb.tail := by
    rw [hcases]
    by_cases hle : rb.head ≤ rb.tail
    · rw [if_pos hle]
      have e : rb.head + (rb.tail - rb.head) < rb.size := by omega
      rw [Nat.mod_eq_of_lt e]
      omega
    · rw [if_neg hle,
        Ring.mod_two_cases rb.size (rb.head + (rb.tail + rb.size - rb.head)) hSpos
          (by omega),
        if_neg (show ¬ rb.head + (rb.tail + rb.size - rb.head) < rb.size by omega)]
      omega
  have hidx_ne : ∀ i, i < Ring.ringCount rb → (rb.head + i) % rb.size ≠ rb.tail := by
    intro i hi
    have hi2 : i < rb.size := lt_trans hi hcnt_lt
    rw [hcases] at hi
    rw [Ring.mod_two_cases rb.size (rb.head + i) hSpos (by omega)]
    by_cases hle : rb.head ≤ rb.tail
    · rw [if_pos hle] at hi
      rw [if_pos (by omega)]
      omega
    · rw [if_neg hle] at hi
      by_cases hhi : rb.head + i < rb.size
      · rw [if_pos hhi]; omega
      · rw [if_neg hhi]; omega
  have hpushnone : Ring.ringbuf_push rb x = none ↔
      (rb.tail + 1) &&& rb.mask = rb.head := by
    by_cases hcond : (rb.tail + 1) &&& rb.mask = rb.head <;>
      simp [Ring.ringbuf_push, hcond]
  have hpopnone : Ring.ringbuf_pop rb = none ↔ rb.head = rb.tail := by
    by_cases hcond : rb.head = rb.tail <;> simp [Ring.ringbuf_pop, hcond]
  have hcount : Ring.ringbuf_count rb = Ring.ringCount rb := by
    show ((rb.tail + U32 - rb.head) % U32) &&& rb.mask = Ring.ringCount rb
    rw [hmask]
    have hdvd : rb.size ∣ U32 := by
      rw [hS]
      exact pow_dvd_pow 2 hk32
    rw [Nat.mod_mod_of_dvd _ hdvd]
    obtain ⟨m, hm⟩ := hdvd
    cases m with
    | zero => rw [Nat.mul_zero] at hm; norm_num [U32] at hm
    | succ m' =>
      have e : rb.tail + U32 - rb.head =
          (rb.tail + rb.size - rb.head) + rb.size * m' := by
        have e2 : rb.size * (m' + 1) = rb.size * m' + rb.size := by ring
        rw [hm, e2]
        omega
      rw [e, Nat.add_mul_mod_self_left]
      rfl
  have hpush : ∀ rb', Ring.ringbuf_push rb x = some rb' →
      Ring.RingInv rb' ∧ Ring.ringList rb' = Ring.ringList rb ++ [x] := by
    intro rb' hp
    by_cases hcond : (rb.tail + 1) &&& rb.mask = rb.head
    · simp [Ring.ringbuf_push, hcond] at hp
    · simp only [Ring.ringbuf_push, if_neg hcond, Option.some_inj] at hp
      subst hp
      have hnotfull : Ring.ringCount rb ≠ rb.size - 1 := fun hcc => hcond (hfull.mpr hcc)
      have hS2 : 2 ≤ rb.size := by omega
      have htail' : (rb.tail + 1) &&& rb.mask = (rb.tail + 1) % rb.size := hmask _
      constructor
      · refine ⟨k, hk32, hS, hM, hh, ?_⟩
        show (rb.tail + 1) &&& rb.mask < rb.size
        rw [hmask]
        exact Nat.mod_lt _ hSpos
      · have hcnt' : Ring.ringCount
            { rb with buffer := Function.update rb.buffer rb.tail x,
                      tail := (rb.tail + 1) &&& rb.mask } =
            Ring.ringCount rb + 1 := by
          show (((rb.tail + 1) &&& rb.mask) + rb.size - rb.head) % rb.size =
            Ring.ringCount rb + 1
          rw [htail']
          have e1 : (rb.tail + 1) % rb.size + rb.size - rb.head
              = (rb.tail + 1) % rb.size + (rb.size - rb.head) := by omega
          rw [e1, Nat.mod_add_mod]
          have e2 : rb.tail + 1 + (rb.size - rb.head)
              = rb.tail + rb.size - rb.head + 1 := by omega
          rw [e2, Nat.add_mod (rb.tail + rb.size - rb.head) 1 rb.size,
            Nat.mod_eq_of_lt (show 1 < rb.size by omega)]
          rw [show (rb.tail + rb.size - rb.head) % rb.size = Ring.ringCount rb from rfl]
          rw [Nat.mod_eq_of_lt (by omega)]
        simp only [Ring.ringList]
        rw [hcnt', List.range_succ, List.map_append, List.map_cons, List.map_nil]
        congr 1
        · apply List.map_congr_left
          intro i hi
          have hi' : i < Ring.ringCount rb := List.mem_range.mp hi
          show Function.update rb.buffer rb.tail x ((rb.head + i) % rb.size)
              = rb.buffer ((rb.head + i) % rb.size)
          exact Function.update_noteq (hidx_ne i hi') x rb.buffer
        · show [Function.update rb.buffer rb.tail x
            ((rb.head + Ring.ringCount rb) % rb.size)] = [x]
          rw [hidx_last, Function.update_same]
  have hpop : ∀ v rb', Ring.ringbuf_pop rb = some (v, rb') →
      Ring.RingInv rb' ∧ Ring.ringList rb = v :: Ring.ringList rb' := by
    intro v rb' hp
    by_cases hcond : rb.head = rb.tail
    · simp [Ring.ringbuf_pop, hcond] at hp
    · simp only [Ring.ringbuf_pop, if_neg hcond, Option.some_inj,
        Prod.mk.injEq] at hp
      obtain ⟨hv, hrb'⟩ := hp
      subst hv
      subst hrb'
      have hcnt0 : Ring.ringCount rb ≠ 0 := fun h0 => hcond (hempty.mpr h0)
      have hhead' : (rb.head + 1) &&& rb.mask = (rb.head + 1) % rb.size := hmask _
      constructor
      · refine ⟨k, hk32, hS, hM, ?_, ht⟩
        show (rb.head + 1) &&& rb.mask < rb.size
        rw [hmask]
        exact Nat.mod_lt _ hSpos
      · have hcnt' : Ring.ringCount { rb with head := (rb.head + 1) &&& rb.mask } =
            Ring.ringCount rb - 1 := by
          show (rb.tail + rb.size - ((rb.head + 1) &&& rb.mask)) % rb.size =
            Ring.ringCount rb - 1
          rw [hhead']
          by_cases hh1 : rb.head + 1 < rb.size
          · rw [Nat.mod_eq_of_lt hh1,
              Ring.mod_two_cases rb.size (rb.tail + rb.size - (rb.head + 1)) hSpos
                (by omega),
              show Ring.ringCount rb = (rb.tail + rb.size - rb.head) % rb.size from rfl,
              Ring.mod_two_cases rb.size (rb.tail + rb.size - rb.head) hSpos (by omega)]
            by_cases hy : rb.tail + rb.size - (rb.head + 1) < rb.size
            · rw [if_pos hy]
              by_cases hy2 : rb.tail + rb.size - rb.head < rb.size
              · rw [if_pos hy2]; omega
              · rw [if_neg hy2]; omega
            · rw [if_neg hy]
              by_cases hy2 : rb.tail + rb.size - rb.head < rb.size
              · rw [if_pos hy2]; omega
              · rw [if_neg hy2]; omega
          · have hhS : rb.head + 1 = rb.size := by omega
            rw [hhS, Nat.mod_self, Nat.sub_zero,
              show Ring.ringCount rb = (rb.tail + rb.size - rb.head) % rb.size from rfl,
              Ring.mod_two_cases rb.size (rb.tail + rb.size) hSpos (by omega),
              Ring.mod_two_cases rb.size (rb.tail + rb.size - rb.head) hSpos (by omega),
              if_neg (show ¬ rb.tail + rb.size < rb.size by omega)]
            by_cases hy2 : rb.tail + rb.size - rb.head < rb.size
            · rw [if_pos hy2]; omega
            · rw [if_neg hy2]; omega
        have hc1 : 1 ≤ Ring.ringCount rb := Nat.pos_of_ne_zero hcnt0
        simp only [Ring.ringList]
        rw [hcnt']
        generalize hm : Ring.ringCount rb - 1 = m
        have hmm : Ring.ringCount rb = m + 1 := by omega
        rw [hmm, List.range_succ_eq_map, List.map_cons, List.map_map]
        congr 1
        · show rb.buffer ((rb.head + 0) % rb.size) = rb.buffer rb.head
          rw [Nat.add_zero, Nat.mod_eq_of_lt hh]
        · apply List.map_congr_left
          intro i _
          show rb.buffer ((rb.head + Nat.succ i) % rb.size)
              = rb.buffer ((((rb.head + 1) &&& rb.mask) + i) % rb.size)
          rw [hhead', Nat.mod_add_mod,
            show rb.head + Nat.succ i = rb.head + 1 + i by omega]
  exact ⟨⟨hpushnone, hfull⟩, ⟨hpopnone, hempty⟩, ⟨hcount, by rw [hcount]; omega⟩,
    hpush, hpop, by decide⟩

/-- C4 witness: the theorem at a concrete empty 4-slot ring with pushed
value 9: the invariant holds and the count stays within capacity. -/
theorem ringbuf_spec_witness :
    Ring.RingInv Ring.c4w ∧ Ring.ringbuf_count Ring.c4w ≤ Ring.c4w.size - 1 :=
  ⟨⟨2, by decide, rfl, rfl, by decide, by decide⟩,
   (ringbuf_spec Ring.c4w 9 ⟨2, by decide, rfl, rfl, by decide, by decide⟩).2.2.1.2⟩

namespace Mem

/-- The 8-byte alignment `(size + 7) & ~7` used throughout `memory.c`:
clearing the low three bits of `size + 7`. -/
def align8 (n : Nat) : Nat := (n + 7) - (n + 7) % 8

/-- The overflow test of `_kcalloc_debug` (memory.c, lines 183–192):
`total_size = count * size` in 32-bit arithmetic, then the call is rejected
when `total_size / count != size`.  The C division is performed
unconditionally and is undefined when `count == 0`; that case is `none`. -/
def kcalloc_overflow_check (count size : Nat) : Option Bool :=
  if count = 0 then none
  else some (decide ((count * size) % U32 / count = size))

/-- `MEMORY_GUARD_MAGIC` from memory.h. -/
def MEMORY_GUARD_MAGIC : Nat := 0xDEADBEEF

/-- `MEMORY_FREE_MAGIC` from memory.h. -/
def MEMORY_FREE_MAGIC : Nat := 0xFEEDFACE

/-- `KERNEL_HEAP_START` from memory.h. -/
def KERNEL_HEAP_START : Nat := 0x100000

/-- `KERNEL_HEAP_SIZE` from memory.h. -/
def KERNEL_HEAP_SIZE : Nat := 0x400000

/-- `sizeof(mem_block_t)` on the 32-bit x86 target: eight 4-byte fields. -/
def HEADER_SIZE : Nat := 32

/-- `MAX_ALLOCATIONS` from memory.h. -/
def MAX_ALLOCATIONS : Nat := 1024

/-- `mem_block_t` from memory.h.  The heap is its chain of headers in
address order, so the `next`/`prev` links are the list structure; the byte
payload itself carries no information the allocator reads. -/
structure HBlock where
  magic : Nat
  bsize : Nat
  bfree : Bool
  file : String
  line : Nat
  alloc_id : Nat
deriving DecidableEq

/-- `allocation_info_t` from memory.h. -/
structure AllocRec where
  ptr : Nat
  asize : Nat
  file : String
  line : Nat
  alloc_id : Nat
  timestamp : Nat
deriving DecidableEq

/-- The allocator's global state: the block chain from `heap_start`, the
counters of `heap_stats_t` that the embedded operations touch, the
`allocations` side table, and `next_alloc_id`.  (The gauges recomputed
lazily by `get_heap_stats` are not part of the mutable state.) -/
structure HeapState where
  blocks : List HBlock
  used_memory : Nat
  free_memory : Nat
  total_allocations : Nat
  active_allocations : Nat
  failed_allocations : Nat
  free_operations : Nat
  coalesce_operations : Nat
  allocations : List (Option AllocRec)
  next_alloc_id : Nat
deriving DecidableEq

/-- `memory_init` (memory.c, lines 9–34). -/
def memory_init : HeapState :=
  { blocks := [{ magic := MEMORY_GUARD_MAGIC, bsize := KERNEL_HEAP_SIZE - HEADER_SIZE,
                 bfree := true, file := "system", line := 0, alloc_id := 0 }]
    used_memory := HEADER_SIZE
    free_memory := KERNEL_HEAP_SIZE - HEADER_SIZE
    total_allocations := 0
    active_allocations := 0
    failed_allocations := 0
    free_operations := 0
    coalesce_operations := 0
    allocations := List.replicate MAX_ALLOCATIONS none
    next_alloc_id := 1 }

/-- Replace the block at index `i` by `f` of it. -/
def modify_at (f : HBlock → HBlock) : Nat → List HBlock → List HBlock
  | _, [] => []
  | 0, b :: rest => f b :: rest
  | n + 1, b :: rest => b :: modify_at f n rest

/-- Insert a block at index `i` (used to link the split remainder after the
chosen block). -/
def insert_at : Nat → HBlock → List HBlock → List HBlock
  | 0, nb, l => nb :: l
  | _ + 1, _, [] => []
  | n + 1, nb, b :: rest => b :: insert_at n nb rest

/-- Remove the block at index `i` (used when a coalesce absorbs it). -/
def remove_at : Nat → List HBlock → List HBlock
  | _, [] => []
  | 0, _ :: rest => rest
  | n + 1, b :: rest => b :: remove_at n rest

/-- Payload address of the block at index `i` in the chain laid out from
`base`: each block occupies `HEADER_SIZE + size` bytes. -/
def payload_addr : List HBlock → Nat → Nat → Option Nat
  | [], _, _ => none
  | _ :: _, base, 0 => some (base + HEADER_SIZE)
  | b :: rest, base, i + 1 => payload_addr rest (base + HEADER_SIZE + b.bsize) i

/-- Payload address of block `i` from `KERNEL_HEAP_START` (0 if out of
range; the C code computes `(char*)block + sizeof(mem_block_t)`). -/
def addr_of (blocks : List HBlock) (i : Nat) : Nat :=
  (payload_addr blocks KERNEL_HEAP_START i).getD 0

/-- Index of the block whose payload address is `ptr` — the block the C
code reaches by computing `ptr - sizeof(mem_block_t)`. -/
def find_block : List HBlock → Nat → Nat → Option Nat
  | [], _, _ => none
  | b :: rest, base, ptr =>
    if base + HEADER_SIZE = ptr then some 0
    else (find_block rest (base + HEADER_SIZE + b.bsize) ptr).map (· + 1)

/-- The best-fit walk of `_kmalloc_debug` (memory.c, lines 49–64): visit the
blocks in `next` order; abort with `none` at the first block whose guard is
not `MEMORY_GUARD_MAGIC` ("Heap corruption detected in kmalloc!"); otherwise
return the index and size of the smallest free block with size ≥ `size`,
keeping the first encountered on ties (`current->size < best_fit->size` is
strict). -/
def kmalloc_walk (size : Nat) : List HBlock → Nat → Option (Nat × Nat) →
    Option (Option (Nat × Nat))
  | [], _, best => some best
  | b :: rest, i, best =>
    if b.magic ≠ MEMORY_GUARD_MAGIC then none
    else
      kmalloc_walk size rest (i + 1)
        (if b.bfree ∧ size ≤ b.bsize then
          match best with
          | none => some (i, b.bsize)
          | some (bi, bs) => if b.bsize < bs then some (i, b.bsize) else some (bi, bs)
        else best)

/-- Register an entry in the first empty slot of the side table
(memory.c, lines 103–113). -/
def table_put : List (Option AllocRec) → AllocRec → List (Option AllocRec)
  | [], _ => []
  | none :: rest, r => some r :: rest
  | some e :: rest, r => some e :: table_put rest r

/-- Clear the first side-table entry whose pointer is `ptr`
(memory.c, lines 152–157). -/
def table_del : List (Option AllocRec) → Nat → List (Option AllocRec)
  | [], _ => []
  | none :: rest, p => none :: table_del rest p
  | some e :: rest, p => if e.ptr = p then none :: rest else some e :: table_del rest p

/-- `_kmalloc_debug` (memory.c, lines 40–116): returns the payload address
(or `none`) and the new heap state.  The corruption abort returns the state
unchanged (the C code returns before touching stats); best-fit exhaustion
bumps `failed_allocations`; otherwise the chosen block is split exactly when
its size exceeds `size + sizeof(mem_block_t) + 16`, marked used with
provenance and a fresh id, the stats are bumped by its (post-split) size,
and a side-table entry is registered. -/
def _kmalloc_debug (st : HeapState) (size : Nat) (file : String) (line : Nat) :
    Option Nat × HeapState :=
  if size = 0 then (none, st)
  else
    let r := align8 size
    match kmalloc_walk r st.blocks 0 none with
    | none => (none, st)
    | some none => (none, { st with failed_allocations := st.failed_allocations + 1 })
    | some (some (i, bsz)) =>
      let split := bsz > r + HEADER_SIZE + 16
      let blocks1 :=
        if split then
          insert_at (i + 1)
            { magic := MEMORY_GUARD_MAGIC, bsize := bsz - r - HEADER_SIZE,
              bfree := true, file := "split", line := 0, alloc_id := 0 }
            (modify_at (fun b => { b with bsize := r }) i st.blocks)
        else st.blocks
      let blocks2 := modify_at
        (fun b => { b with bfree := false, file := file, line := line,
                           alloc_id := st.next_alloc_id }) i blocks1
      let asize := if split then r else bsz
      let addr := addr_of blocks2 i
      (some addr,
       { st with
          blocks := blocks2
          used_memory := st.used_memory + asize
          free_memory := st.free_memory - asize
          total_allocations := st.total_allocations + 1
          active_allocations := st.active_allocations + 1
          allocations := table_put st.allocations
            { ptr := addr, asize := asize, file := file, line := line,
              alloc_id := st.next_alloc_id, timestamp := st.total_allocations + 1 }
          next_alloc_id := st.next_alloc_id + 1 })

/-- The diagnostics `_kfree_debug` can emit on the console. -/
inductive FreeDiag where
  | doubleFreeOrCorruption
  | doubleFreeFlag
deriving DecidableEq

/-- The body of `_kfree_debug` (memory.c, lines 122–180) once the header at
`ptr - sizeof(mem_block_t)` has been located as block `i`: a guard that is
not `MEMORY_GUARD_MAGIC` emits the single combined "Double free or
corruption detected in kfree!" diagnostic and returns without mutating
anything; a set free flag (unreachable after a genuine free, which rewrites
the guard) emits "Double free detected!"; otherwise the block is freed,
re-guarded with `MEMORY_FREE_MAGIC`, the stats and side table updated, and
the block coalesced with its next then its previous neighbor. -/
def kfree_at (st : HeapState) (i : Nat) (ptr : Nat) : HeapState × List FreeDiag :=
  match st.blocks.get? i with
  | none => (st, [])
  | some b =>
    if b.magic ≠ MEMORY_GUARD_MAGIC then (st, [FreeDiag.doubleFreeOrCorruption])
    else if b.bfree then (st, [FreeDiag.doubleFreeFlag])
    else
      let blocks2 := modify_at
        (fun bb => { bb with bfree := true, magic := MEMORY_FREE_MAGIC }) i st.blocks
      let st2 := { st with
        blocks := blocks2
        used_memory := st.used_memory - b.bsize
        free_memory := st.free_memory + b.bsize
        free_operations := st.free_operations + 1
        active_allocations := st.active_allocations - 1
        allocations := table_del st.allocations ptr }
      let st3 :=
        match blocks2.get? (i + 1) with
        | some nb =>
          if nb.bfree then
            { st2 with
                blocks := remove_at (i + 1)
                  (modify_at (fun bb => { bb with bsize := bb.bsize + nb.bsize + HEADER_SIZE })
                    i blocks2)
                coalesce_operations := st2.coalesce_operations + 1 }
          else st2
        | none => st2
      match i with
      | 0 => (st3, [])
      | i' + 1 =>
        match st3.blocks.get? i', st3.blocks.get? (i' + 1) with
        | some pb, some cb =>
          if pb.bfree then
            ({ st3 with
                blocks := remove_at (i' + 1)
                  (modify_at (fun bb => { bb with bsize := bb.bsize + cb.bsize + HEADER_SIZE })
                    i' st3.blocks)
                coalesce_operations := st3.coalesce_operations + 1 }, [])
          else (st3, [])
        | _, _ => (st3, [])

/-- `_kfree_debug` (memory.c, lines 122–180).  Null pointers are rejected
silently; a pointer that is no block's payload address would make the C code
read arbitrary memory as a header, which is outside the model and returned
as a silent no-op. -/
def _kfree_debug (st : HeapState) (ptr : Nat) : HeapState × List FreeDiag :=
  if ptr = 0 then (st, [])
  else
    match find_block st.blocks KERNEL_HEAP_START ptr with
    | none => (st, [])
    | some i => kfree_at st i ptr

/-- The spec's heap round-trip seed scenario: `a = alloc(100)`,
`b = alloc(200)`, `c = alloc(300)`, `free(b)`, then `alloc(150)`.  Returns
`(a, b, c, state after the free, result of alloc(150))`. -/
def c5_run : Option Nat × Option Nat × Option Nat × HeapState × Option Nat :=
  let r1 := _kmalloc_debug memory_init 100 "t.c" 1
  let r2 := _kmalloc_debug r1.2 200 "t.c" 2
  let r3 := _kmalloc_debug r2.2 300 "t.c" 3
  let s4 := match r2.1 with
    | some b => (_kfree_debug r3.2 b).1
    | none => r3.2
  let r5 := _kmalloc_debug s4 150 "t.c" 4
  (r1.1, r2.1, r3.1, s4, r5.1)

/-- The view of `mem_block_t` that `check_heap_integrity` walks: the guard,
the free flag, and the `prev` link (as a block index, `none` for null).
The walk follows `next`, i.e. list order. -/
structure ChkBlock where
  magic : Nat
  cfree : Bool
  prevlink : Option Nat
deriving DecidableEq

/-- `check_heap_integrity`'s loop body (memory.c, lines 315–327). -/
def chi_step (errors : Nat) (b : ChkBlock) : Nat :=
  if b.cfree ∧ b.magic ≠ MEMORY_GUARD_MAGIC then
    if b.magic ≠ MEMORY_FREE_MAGIC then errors + 1 else errors
  else if ¬ b.cfree ∧ b.magic ≠ MEMORY_GUARD_MAGIC then errors + 1
  else errors

/-- `check_heap_integrity` (memory.c, lines 310–330): walk the `next` chain
counting guard errors.  The walk reads only `magic` and `free`; the `prev`
links (carried here per block) are never inspected. -/
def check_heap_integrity (l : List ChkBlock) : Nat :=
  List.foldl chi_step 0 l

/-- A block's guard is wrong in the sense the walk detects: a free block
whose guard is neither magic value, or a used block whose guard is not
`MEMORY_GUARD_MAGIC`. -/
def bad_magic (b : ChkBlock) : Bool :=
  (b.cfree && (b.magic != MEMORY_GUARD_MAGIC) && (b.magic != MEMORY_FREE_MAGIC))
  || (!b.cfree && (b.magic != MEMORY_GUARD_MAGIC))

/-- The `prev` links invert the `next` chain: the first block's `prev` is
null and each later block's `prev` points to its predecessor. -/
def links_consistent (l : List ChkBlock) : Bool :=
  (List.range l.length).all fun i =>
    match l.get? i with
    | some b => b.prevlink == (if i = 0 then none else some (i - 1))
    | none => true

/-- Resources `create_memory_pool` acquires from the heap allocator. -/
inductive PoolRes where
  | header
  | slab
  | bitmap
deriving DecidableEq

/-- `memory_pool_t` from memory.h (the slab base pointer is implicit; the
bitmap is its sequence of bits, a set bit meaning free). -/
structure MemoryPool where
  block_size : Nat
  block_count : Nat
  free_blocks : Nat
  bitmap_bits : Nat → Bool

/-- `create_memory_pool` (memory.c, lines 443–474), with the success of
each of the three `kmalloc` calls given by `alloc_ok`.  Returns the pool
(or `none`) together with the resources acquired and the resources freed
before returning.  The bitmap `memset(0xFF)` sets every bit of the
`(block_count + 31) / 32` words. -/
def create_memory_pool (alloc_ok : PoolRes → Bool) (block_size block_count : Nat) :
    Option MemoryPool × List PoolRes × List PoolRes :=
  if ¬ alloc_ok PoolRes.header then (none, [], [])
  else
    let bs := align8 block_size
    if ¬ alloc_ok PoolRes.slab then (none, [PoolRes.header], [PoolRes.header])
    else if ¬ alloc_ok PoolRes.bitmap then
      (none, [PoolRes.header, PoolRes.slab], [PoolRes.slab, PoolRes.header])
    else
      let bitmap_size := (block_count + 31) / 32
      (some { block_size := bs, block_count := block_count,
              free_blocks := block_count,
              bitmap_bits := fun i => decide (i < bitmap_size * 32) },
       [PoolRes.header, PoolRes.slab, PoolRes.bitmap], [])

end Mem

namespace Sched

/-- The intrusive queue links of `process_t` (`next`/`prev`, process.h).
Processes are identified by their table index. -/
structure ProcLinks where
  next : Option Nat
  prev : Option Nat
deriving DecidableEq

/-- `scheduler_queue_t` from process.h: `head`, `tail`, and a 32-bit
`count`. -/
structure SchedQueue where
  head : Option Nat
  tail : Option Nat
  count : Nat
deriving DecidableEq

/-- The scheduler state the queue operations touch: the link fields of every
process, and the five ready queues `ready_queues[5]`. -/
structure SchedState where
  procs : Nat → ProcLinks
  ready : Fin 5 → SchedQueue

/-- `queue_remove` (scheduler.c, lines 274–292).  Unlinks `p` from `q`
unconditionally: the C code never checks that `p` is actually an element of
`q`.  `count--` is 32-bit, hence the `% U32`. -/
def queue_remove (procs : Nat → ProcLinks) (q : SchedQueue) (p : Nat) :
    (Nat → ProcLinks) × SchedQueue :=
  let pl := procs p
  let procs1 := match pl.prev with
    | some pr => Function.update procs pr { procs pr with next := pl.next }
    | none => procs
  let q1 := match pl.prev with
    | some _ => q
    | none => { q with head := pl.next }
  let procs2 := match pl.next with
    | some nx => Function.update procs1 nx { procs1 nx with prev := pl.prev }
    | none => procs1
  let q2 := match pl.next with
    | some _ => q1
    | none => { q1 with tail := pl.prev }
  (Function.update procs2 p { next := none, prev := none },
   { q2 with count := (q2.count + (U32 - 1)) % U32 })

/-- `scheduler_remove_process` (scheduler.c, lines 101–108): calls
`queue_remove` on each of the five ready queues in order. -/
def scheduler_remove_process (s : SchedState) (p : Nat) : SchedState :=
  List.foldl
    (fun st i =>
      let r := queue_remove st.procs (st.ready i) p
      { procs := r.1, ready := Function.update st.ready i r.2 })
    s (List.finRange 5)

/-- `queue_remove_head` (scheduler.c, lines 252–269): dequeue the head of
`q`, returning it together with the updated links and queue. -/
def queue_remove_head (procs : Nat → ProcLinks) (q : SchedQueue) :
    Option Nat × (Nat → ProcLinks) × SchedQueue :=
  match q.head with
  | none => (none, procs, q)
  | some p =>
    let q1 : SchedQueue := { q with head := (procs p).next }
    let step : (Nat → ProcLinks) × SchedQueue := match (procs p).next with
      | some h => (Function.update procs h { procs h with prev := none }, q1)
      | none => (procs, { q1 with tail := none })
    (some p, Function.update step.1 p { next := none, prev := none },
     { step.2 with count := (step.2.count + (U32 - 1)) % U32 })

/-- The priority scan of `scheduler_pick_next` (scheduler.c, lines 70–83):
walk the ready queues in the given order; on the first queue with
`count > 0`, dequeue its head and return it if non-null, otherwise keep
scanning; fall back to the idle process when the scan is exhausted. -/
def scheduler_pick_next_loop (idle : Nat) (s : SchedState) :
    List (Fin 5) → Nat × SchedState
  | [] => (idle, s)
  | i :: rest =>
    if (s.ready i).count > 0 then
      match queue_remove_head s.procs (s.ready i) with
      | (some p, procs1, q1) =>
        (p, { procs := procs1, ready := Function.update s.ready i q1 })
      | (none, _, _) => scheduler_pick_next_loop idle s rest
    else scheduler_pick_next_loop idle s rest

/-- `scheduler_pick_next` (scheduler.c, lines 70–83), with the global
`idle_process` passed explicitly. -/
def scheduler_pick_next (idle : Nat) (s : SchedState) : Nat × SchedState :=
  scheduler_pick_next_loop idle s (List.finRange 5)

/-- The concrete state for the C2 counterexample: process 1 is the sole
element of ready queue 2; all other queues are empty. -/
def c2_state : SchedState :=
  { procs := fun _ => { next := none, prev := none }
    ready := fun i =>
      if i.val = 2 then { head := some 1, tail := some 1, count := 1 }
      else { head := none, tail := none, count := 0 } }

end Sched

/-- If the scanned queue is empty or its head is null, the scan moves on with
the state untouched. -/
lemma pick_loop_skip (idle : Nat) (s : Sched.SchedState) (i : Fin 5)
    (rest : List (Fin 5)) (h : ¬ 0 < (s.ready i).count) :
    Sched.scheduler_pick_next_loop idle s (i :: rest) =
      Sched.scheduler_pick_next_loop idle s rest := by
  simp [Sched.scheduler_pick_next_loop, h]

/-- On the first queue with a positive count and head `p`, the scan dequeues
and returns `p`. -/
lemma pick_loop_hit (idle : Nat) (s : Sched.SchedState) (i : Fin 5)
    (rest : List (Fin 5)) (p : Nat) (hc : 0 < (s.ready i).count)
    (hp : (s.ready i).head = some p) :
    (Sched.scheduler_pick_next_loop idle s (i :: rest)).1 = p := by
  simp [Sched.scheduler_pick_next_loop, hc, Sched.queue_remove_head, hp]

/-- C3: `scheduler_pick_next` scans the ready queues from priority 0 to 4,
dequeues and returns the head of the first non-empty queue, returns the idle
task when all five are empty, and — provided heads of non-empty queues exist
and tasks sit in the queue of their own priority — the returned task's
priority is ≤ the priority of every Ready task. -/
theorem scheduler_pick_next_spec (idle : Nat) (s : Sched.SchedState)
    (prio : Nat → Nat)
    (hhead : ∀ i : Fin 5, 0 < (s.ready i).count → (s.ready i).head.isSome)
    (hprio : ∀ (i : Fin 5) (p : Nat), (s.ready i).head = some p → prio p = i.val) :
    ((∀ i : Fin 5, (s.ready i).count = 0) →
        (Sched.scheduler_pick_next idle s).1 = idle)
    ∧ (∀ j : Fin 5, 0 < (s.ready j).count →
        (∀ i : Fin 5, i < j → (s.ready i).count = 0) →
        (s.ready j).head = some (Sched.scheduler_pick_next idle s).1)
    ∧ (∀ k : Fin 5, 0 < (s.ready k).count →
        ∃ j : Fin 5, j ≤ k ∧
          (s.ready j).head = some (Sched.scheduler_pick_next idle s).1 ∧
          prio (Sched.scheduler_pick_next idle s).1 ≤ k.val) := by
  have hlist : List.finRange 5 = [0, 1, 2, 3, 4] := by decide
  have hB : ∀ j : Fin 5, 0 < (s.ready j).count →
      (∀ i : Fin 5, i < j → (s.ready i).count = 0) →
      (s.ready j).head = some (Sched.scheduler_pick_next idle s).1 := by
    intro j hj hfirst
    obtain ⟨p, hp⟩ := Option.isSome_iff_exists.mp (hhead j hj)
    rw [Sched.scheduler_pick_next, hlist]
    have e0 : ∀ h : (0 : Fin 5) < j, ¬ 0 < (s.ready 0).count := by
      intro h; rw [hfirst 0 h]; omega
    have e1 : ∀ h : (1 : Fin 5) < j, ¬ 0 < (s.ready 1).count := by
      intro h; rw [hfirst 1 h]; omega
    have e2 : ∀ h : (2 : Fin 5) < j, ¬ 0 < (s.ready 2).count := by
      intro h; rw [hfirst 2 h]; omega
    have e3 : ∀ h : (3 : Fin 5) < j, ¬ 0 < (s.ready 3).count := by
      intro h; rw [hfirst 3 h]; omega
    fin_cases j
    · rw [pick_loop_hit idle s 0 _ p hj hp]; exact hp
    · rw [pick_loop_skip idle s 0 _ (e0 (by decide)),
        pick_loop_hit idle s 1 _ p hj hp]
      exact hp
    · rw [pick_loop_skip idle s 0 _ (e0 (by decide)),
        pick_loop_skip idle s 1 _ (e1 (by decide)),
        pick_loop_hit idle s 2 _ p hj hp]
      exact hp
    · rw [pick_loop_skip idle s 0 _ (e0 (by decide)),
        pick_loop_skip idle s 1 _ (e1 (by decide)),
        pick_loop_skip idle s 2 _ (e2 (by decide)),
        pick_loop_hit idle s 3 _ p hj hp]
      exact hp
    · rw [pick_loop_skip idle s 0 _ (e0 (by decide)),
        pick_loop_skip idle s 1 _ (e1 (by decide)),
        pick_loop_skip idle s 2 _ (e2 (by decide)),
        pick_loop_skip idle s 3 _ (e3 (by decide)),
        pick_loop_hit idle s 4 _ p hj hp]
      exact hp
  refine ⟨?_, hB, ?_⟩
  · intro h
    rw [Sched.scheduler_pick_next, hlist,
      pick_loop_skip idle s 0 _ (by rw [h 0]; omega),
      pick_loop_skip idle s 1 _ (by rw [h 1]; omega),
      pick_loop_skip idle s 2 _ (by rw [h 2]; omega),
      pick_loop_skip idle s 3 _ (by rw [h 3]; omega),
      pick_loop_skip idle s 4 _ (by rw [h 4]; omega)]
    rfl
  · intro k hk
    have hfin : ∀ m : Fin 5, m = 0 ∨ m = 1 ∨ m = 2 ∨ m = 3 ∨ m = 4 := by decide
    have hfind : ∃ j : Fin 5, 0 < (s.ready j).count ∧
        (∀ i : Fin 5, i < j → (s.ready i).count = 0) ∧ j ≤ k := by
      by_cases h0 : 0 < (s.ready 0).count
      · exact ⟨0, h0, fun i hi => absurd hi (by omega), Fin.zero_le k⟩
      · by_cases h1 : 0 < (s.ready 1).count
        · refine ⟨1, h1, fun i hi => ?_, ?_⟩
          · rcases hfin i with h | h | h | h | h <;> subst h
            · omega
            all_goals exact absurd hi (by decide)
          · rcases hfin k with h | h | h | h | h <;> subst h
            · exact absurd hk h0
            all_goals decide
        · by_cases h2 : 0 < (s.ready 2).count
          · refine ⟨2, h2, fun i hi => ?_, ?_⟩
            · rcases hfin i with h | h | h | h | h <;> subst h
              · omega
              · omega
              all_goals exact absurd hi (by decide)
            · rcases hfin k with h | h | h | h | h <;> subst h
              · exact absurd hk h0
              · exact absurd hk h1
              all_goals decide
          · by_cases h3 : 0 < (s.ready 3).count
            · refine ⟨3, h3, fun i hi => ?_, ?_⟩
              · rcases hfin i with h | h | h | h | h <;> subst h
                · omega
                · omega
                · omega
                all_goals exact absurd hi (by decide)
              · rcases hfin k with h | h | h | h | h <;> subst h
                · exact absurd hk h0
                · exact absurd hk h1
                · exact absurd hk h2
                all_goals decide
            · refine ⟨4, ?_, fun i hi => ?_, ?_⟩
              · rcases hfin k with h | h | h | h | h <;> subst h
                · exact absurd hk h0
                · exact absurd hk h1
                · exact absurd hk h2
                · exact absurd hk h3
                · exact hk
              · rcases hfin i with h | h | h | h | h <;> subst h
                · omega
                · omega
                · omega
                · omega
                · exact absurd hi (by decide)
              · rcases hfin k with h | h | h | h | h <;> subst h
                · exact absurd hk h0
                · exact absurd hk h1
                · exact absurd hk h2
                · exact absurd hk h3
                · decide
    obtain ⟨j, hj, hfirst, hjk⟩ := hfind
    have hhd := hB j hj hfirst
    exact ⟨j, hjk, hhd, by rw [hprio j _ hhd]; exact hjk⟩

/-- The concrete state for the C3 witness: process 7 is the sole element of
ready queue 2; all other queues are empty. -/
def c3_state : Sched.SchedState :=
  { procs := fun _ => { next := none, prev := none }
    ready := fun i =>
      if i.val = 2 then { head := some 7, tail := some 7, count := 1 }
      else { head := none, tail := none, count := 0 } }

/-- C3 witness: the theorem applied to `c3_state`, where the returned task is
the head of queue 2 and its priority 2 is minimal among Ready tasks. -/
theorem scheduler_pick_next_spec_witness :
    0 < (c3_state.ready 2).count ∧
    ∃ j : Fin 5, j ≤ 2 ∧
      (c3_state.ready j).head = some (Sched.scheduler_pick_next 0 c3_state).1 ∧
      (fun p => if p = 7 then 2 else 0) (Sched.scheduler_pick_next 0 c3_state).1 ≤ 2 := by
  refine ⟨by decide, ?_⟩
  exact (scheduler_pick_next_spec 0 c3_state (fun p => if p = 7 then 2 else 0)
    (by decide)
    (by
      intro i p h
      have hfin : ∀ m : Fin 5, m = 0 ∨ m = 1 ∨ m = 2 ∨ m = 3 ∨ m = 4 := by decide
      rcases hfin i with hh | hh | hh | hh | hh <;> subst hh
      · rw [show (c3_state.ready 0).head = none from rfl] at h
        exact Option.noConfusion h
      · rw [show (c3_state.ready 1).head = none from rfl] at h
        exact Option.noConfusion h
      · rw [show (c3_state.ready 2).head = some 7 from rfl] at h
        injection h with h'
        subst h'
        decide
      · rw [show (c3_state.ready 3).head = none from rfl] at h
        exact Option.noConfusion h
      · rw [show (c3_state.ready 4).head = none from rfl] at h
        exact Option.noConfusion h)).2.2 2 (by decide)

/-- C2: `scheduler_remove_process` corrupts queues that do not contain the
removed process.  With process 1 alone in ready queue 2 and queue 0 empty,
removing process 1 underflows queue 0's 32-bit count from 0 to `2^32 - 1`
(and does the same to every other queue not holding the process), refuting
the claim that queues not containing `p` are left completely unchanged and
that `count` always equals the length of the list. -/
theorem scheduler_remove_corrupts_other_queues :
    (Sched.c2_state.ready 0).head = none ∧ (Sched.c2_state.ready 0).count = 0 ∧
    ((Sched.scheduler_remove_process Sched.c2_state 1).ready 0).count = U32 - 1 := by
  refine ⟨rfl, rfl, ?_⟩
  decide

/-- C1: the code loses and duplicates messages.  After send(0xAA), send(0xBB),
receive (returns 0xAA), send(0xCC), the two remaining type-1 receives return
0xBB twice and leave the queue empty, so 0xBB is returned twice and 0xCC is
silently skipped — refuting the claim that each receive returns the oldest
not-yet-received matching message with no duplication or loss. -/
theorem msgrcv_duplicates_and_skips :
    IPC.c1_run = some (0xAA, 0xBB, 0xBB, 0) := by decide

/-- C8 (counterexample): the overflow test of `_kcalloc_debug` divides by
`count` without guarding `count == 0`, so it is undefined (modelled `none`)
at `count = 0` — refuting the claim that the detection is well-defined for
every input including `n == 0`. -/
theorem kcalloc_check_undefined_at_zero :
    Mem.kcalloc_overflow_check 0 5 = none := by decide

/-- C8 (amended): for every `count ≥ 1`, the overflow test of
`_kcalloc_debug` is well-defined and accepts exactly when the product
`count * size` does not overflow 32-bit arithmetic. -/
theorem kcalloc_check_correct (count size : Nat) (hc : 0 < count) :
    Mem.kcalloc_overflow_check count size = some true ↔ count * size < U32 := by
  unfold Mem.kcalloc_overflow_check
  rw [if_neg (Nat.pos_iff_ne_zero.mp hc)]
  simp only [Option.some_inj, decide_eq_true_eq]
  constructor
  · intro h
    by_contra hover
    push_neg at hover
    have hlt : (count * size) % U32 < U32 := Nat.mod_lt _ (by decide)
    have : (count * size) % U32 / count < size := by
      rw [Nat.div_lt_iff_lt_mul hc]
      calc (count * size) % U32 < U32 := hlt
        _ ≤ count * size := hover
        _ = size * count := Nat.mul_comm _ _
    omega
  · intro h
    rw [Nat.mod_eq_of_lt h, Nat.mul_div_cancel_left size hc]

/-- C8 witness: the amended theorem at `count = 3`, `size = 5`. -/
theorem kcalloc_check_correct_witness :
    0 < 3 ∧ (Mem.kcalloc_overflow_check 3 5 = some true ↔ 3 * 5 < U32) :=
  ⟨by decide, kcalloc_check_correct 3 5 (by decide)⟩

/-- The heap after `a = alloc(100)` followed by `free(a)`: the freed block
has coalesced with the split remainder into a single block guarded by
`MEMORY_FREE_MAGIC`. -/
def c6_state : Mem.HeapState :=
  (Mem._kfree_debug (Mem._kmalloc_debug Mem.memory_init 100 "t.c" 1).2 1048608).1

/-- The same heap with the block's guard smashed to an arbitrary wrong
value instead. -/
def c6_corrupt : Mem.HeapState :=
  { c6_state with
    blocks := [{ magic := 0x12345678, bsize := 4194272, bfree := true,
                 file := "t.c", line := 1, alloc_id := 1 }] }

set_option maxRecDepth 100000 in
/-- C5: the seed scenario fails on the code.  After `a = alloc(100)`,
`b = alloc(200)`, `c = alloc(300)`, `free(b)`, the heap still holds b's
freed 200-byte block — large enough for the rounded request 152 — yet
`alloc(150)` returns null: `free` re-guards the block with
`MEMORY_FREE_MAGIC` while `kmalloc`'s walk treats any guard other than
`MEMORY_GUARD_MAGIC` as corruption and aborts, so the best-fit reuse the
claim (and the spec's seed test 1) promises never happens. -/
theorem kmalloc_after_free_fails :
    Mem.c5_run.1 = some 1048608 ∧ Mem.c5_run.2.1 = some 1048744 ∧
    Mem.c5_run.2.2.1 = some 1048976 ∧
    Mem.c5_run.2.2.2.1.blocks.get? 1 =
      some { magic := Mem.MEMORY_FREE_MAGIC, bsize := 200, bfree := true,
             file := "t.c", line := 2, alloc_id := 2 } ∧
    Mem.c5_run.2.2.2.2 = none := by decide

set_option maxRecDepth 100000 in
/-- C6 (counterexample): the code does not classify a FREED-guard free
distinctly from corruption.  A second free of a freed block and a free of a
block with an arbitrary smashed guard emit the same single combined
diagnostic ("Double free or corruption detected in kfree!"), in both cases
without mutating the heap, the statistics, or the side table. -/
theorem kfree_freed_same_as_corrupt :
    Mem._kfree_debug c6_state 1048608 =
      (c6_state, [Mem.FreeDiag.doubleFreeOrCorruption]) ∧
    Mem._kfree_debug c6_corrupt 1048608 =
      (c6_corrupt, [Mem.FreeDiag.doubleFreeOrCorruption]) := by decide

/-- C6 (amended): a second free on a pointer whose block is guarded by
`MEMORY_FREE_MAGIC` is caught by the guard check: it emits exactly one
diagnostic — the combined double-free-or-corruption message, not a
classification distinct from corruption — and returns with the block list,
the statistics counters, and the allocation side table all unchanged. -/
theorem kfree_double_free_detected (st : Mem.HeapState) (ptr i : Nat)
    (b : Mem.HBlock) (hptr : ptr ≠ 0)
    (hfind : Mem.find_block st.blocks Mem.KERNEL_HEAP_START ptr = some i)
    (hb : st.blocks.get? i = some b)
    (hm : b.magic = Mem.MEMORY_FREE_MAGIC) :
    Mem._kfree_debug st ptr = (st, [Mem.FreeDiag.doubleFreeOrCorruption]) := by
  simp only [Mem._kfree_debug, if_neg hptr, hfind, Mem.kfree_at, hb]
  rw [if_pos (by rw [hm]; decide)]

set_option maxRecDepth 100000 in
/-- C6 witness: the amended theorem at the concrete freed heap. -/
theorem kfree_double_free_detected_witness :
    ((1048608 : Nat) ≠ 0 ∧
      Mem.find_block c6_state.blocks Mem.KERNEL_HEAP_START 1048608 = some 0) ∧
    Mem._kfree_debug c6_state 1048608 =
      (c6_state, [Mem.FreeDiag.doubleFreeOrCorruption]) :=
  ⟨⟨by decide, by decide⟩,
   kfree_double_free_detected c6_state 1048608 0
     { magic := Mem.MEMORY_FREE_MAGIC, bsize := 4194272, bfree := true,
       file := "t.c", line := 1, alloc_id := 1 }
     (by decide) (by decide) (by decide) rfl⟩

/-- The loop body adds one exactly on a bad guard. -/
lemma chi_step_eq (errors : Nat) (b : Mem.ChkBlock) :
    Mem.chi_step errors b = errors + (if Mem.bad_magic b = true then 1 else 0) := by
  unfold Mem.chi_step Mem.bad_magic
  cases hbf : b.cfree <;>
    by_cases h1 : b.magic = Mem.MEMORY_GUARD_MAGIC <;>
      by_cases h2 : b.magic = Mem.MEMORY_FREE_MAGIC <;>
        simp [hbf, h1, h2] <;>
          norm_num [Mem.MEMORY_FREE_MAGIC, Mem.MEMORY_GUARD_MAGIC]

/-- The integrity walk counts exactly the blocks with a bad guard. -/
lemma chi_eq_countP (l : List Mem.ChkBlock) :
    Mem.check_heap_integrity l = l.countP (fun b => Mem.bad_magic b) := by
  unfold Mem.check_heap_integrity
  suffices h : ∀ acc, List.foldl Mem.chi_step acc l =
      acc + l.countP (fun b => Mem.bad_magic b) by
    simpa using h 0
  induction l with
  | nil => intro acc; simp
  | cons b t ih =>
    intro acc
    rw [List.foldl_cons, ih, chi_step_eq, List.countP_cons]
    by_cases hb : Mem.bad_magic b = true <;> simp [hb] <;> omega

/-- C7 (amended): `check_heap_integrity` returns nonzero exactly when some
block on the chain has a bad guard (a free block guarded by neither magic,
or a used block not guarded by `MEMORY_GUARD_MAGIC`); the neighbor links
are never inspected. -/
theorem check_heap_integrity_magic_iff (l : List Mem.ChkBlock) :
    Mem.check_heap_integrity l ≠ 0 ↔ ∃ b ∈ l, Mem.bad_magic b = true := by
  rw [chi_eq_countP, ← Nat.pos_iff_ne_zero]
  exact List.countP_pos_iff

/-- A two-block heap with valid guards whose second block's `prev` link does
not point back at its predecessor. -/
def c7_heap : List Mem.ChkBlock :=
  [{ magic := Mem.MEMORY_GUARD_MAGIC, cfree := false, prevlink := none },
   { magic := Mem.MEMORY_GUARD_MAGIC, cfree := false, prevlink := none }]

/-- C7 (counterexample): on a heap whose guards are all valid but whose
`prev` links are inconsistent, `check_heap_integrity` returns 0 — the
function never checks neighbor links, refuting the claim that it returns
nonzero for inconsistent links. -/
theorem check_heap_integrity_misses_bad_links :
    Mem.check_heap_integrity c7_heap = 0 ∧ Mem.links_consistent c7_heap = false := by
  decide

/-- C9: `create_memory_pool` rounds the block size up to a multiple of 8
and leaks nothing: whenever it returns null, the resources freed are
exactly the resources acquired (header alone, or header and slab); on
success nothing is freed, the pool's block size is the 8-byte-aligned
request, and all `block_count` blocks are free. -/
theorem create_memory_pool_spec (ok : Mem.PoolRes → Bool) (bs bc : Nat) :
    ((Mem.create_memory_pool ok bs bc).1 = none →
      ((Mem.create_memory_pool ok bs bc).2.2).Perm
        ((Mem.create_memory_pool ok bs bc).2.1))
    ∧ (∀ p, (Mem.create_memory_pool ok bs bc).1 = some p →
        (Mem.create_memory_pool ok bs bc).2.2 = [] ∧
        p.block_size = Mem.align8 bs ∧ p.block_size % 8 = 0 ∧
        bs ≤ p.block_size ∧ p.free_blocks = bc ∧
        ∀ i, i < bc → p.bitmap_bits i = true) := by
  by_cases hh : ok Mem.PoolRes.header
  · by_cases hs : ok Mem.PoolRes.slab
    · by_cases hb : ok Mem.PoolRes.bitmap
      · constructor
        · intro hnone
          simp [Mem.create_memory_pool, hh, hs, hb] at hnone
        · intro p hp
          simp only [Mem.create_memory_pool, hh, hs, hb, not_true_eq_false,
            if_false, Option.some_inj] at hp
          subst hp
          refine ⟨by simp [Mem.create_memory_pool, hh, hs, hb], rfl, ?_, ?_, rfl, ?_⟩
          · show Mem.align8 bs % 8 = 0
            unfold Mem.align8
            omega
          · show bs ≤ Mem.align8 bs
            unfold Mem.align8
            omega
          · intro i hi
            show decide (i < (bc + 31) / 32 * 32) = true
            simp only [decide_eq_true_eq]
            omega
      · constructor
        · intro _
          simp only [Mem.create_memory_pool, hh, hs, hb, not_true_eq_false,
            not_false_eq_true, if_false, if_true]
          exact List.Perm.swap Mem.PoolRes.header Mem.PoolRes.slab []
        · intro p hp
          simp [Mem.create_memory_pool, hh, hs, hb] at hp
    · constructor
      · intro _
        simp only [Mem.create_memory_pool, hh, hs, not_true_eq_false,
          not_false_eq_true, if_false, if_true]
        exact List.Perm.refl _
      · intro p hp
        simp [Mem.create_memory_pool, hh, hs] at hp
  · constructor
    · intro _
      simp only [Mem.create_memory_pool, hh, not_false_eq_true, if_true]
      exact List.Perm.refl _
    · intro p hp
      simp [Mem.create_memory_pool, hh] at hp

/-- The pool the witness oracle produces: all three allocations succeed for
a request of 5 blocks of (rounded) 16 bytes. -/
def c9_pool : Mem.MemoryPool :=
  { block_size := 16, block_count := 5, free_blocks := 5,
    bitmap_bits := fun i => decide (i < 32) }

/-- C9 witness: the theorem's success case at a concrete all-succeeding
oracle with `block_size = 10`, `block_count = 5`. -/
theorem create_memory_pool_spec_witness :
    (Mem.create_memory_pool (fun _ => true) 10 5).1 = some c9_pool ∧
    ((Mem.create_memory_pool (fun _ => true) 10 5).2.2 = [] ∧
      c9_pool.block_size = Mem.align8 10 ∧ c9_pool.block_size % 8 = 0 ∧
      10 ≤ c9_pool.block_size ∧ c9_pool.free_blocks = 5 ∧
      ∀ i, i < 5 → c9_pool.bitmap_bits i = true) :=
  ⟨rfl, (create_memory_pool_spec (fun _ => true) 10 5).2 c9_pool rfl⟩
